import Mathlib

/-!
Verification of the encoder core of the async-compression repository.

The development shallowly embeds the two source files:
  * `src/codec/flate/encoder.rs` — the `FlateEncoder` codec (a wrapper over an
    external stateful compression engine), and
  * `src/tokio/bufread/generic/encoder.rs` — the generic polling scheduler
    (`Encoder`, `do_poll_read`, `poll_read`).

The external flate2 engine is an out-of-scope collaborator: it is abstracted
as an arbitrary function `EngineFn` over an engine state carrying the two
monotonic progress counters `total_in` / `total_out`; the byte values the
engine writes are likewise out of scope, so buffers track bytes and cursor
positions but engine-produced byte contents are not modelled.
-/

namespace AC

/-- Modelled from the spec: the Bounded Cursor Buffer (`util::PartialBuffer`,
whose source file is not among the given files): a byte region plus a single
position index; `written`/`unwritten` are the two sub-views and `advance` the
only mutator. -/
structure PartialBuffer where
  buffer : List Nat
  index : Nat
  deriving DecidableEq

/-- `PartialBuffer::new`: wraps a region with the cursor at the start. -/
def PartialBuffer.new (b : List Nat) : PartialBuffer :=
  { buffer := b, index := 0 }

/-- `written()`: the sub-region `[0, index)`. -/
def PartialBuffer.written (b : PartialBuffer) : List Nat :=
  b.buffer.take b.index

/-- `unwritten()`: the sub-region `[index, len)`. -/
def PartialBuffer.unwritten (b : PartialBuffer) : List Nat :=
  b.buffer.drop b.index

/-- `advance(n)`: moves the cursor forward by `n` (callers maintain the
`index + n ≤ len` contract). -/
def PartialBuffer.advance (b : PartialBuffer) (n : Nat) : PartialBuffer :=
  { b with index := b.index + n }

/-- `flate2::Status`. -/
inductive Status where
  | ok
  | streamEnd
  | bufError
  deriving DecidableEq

/-- `flate2::FlushCompress`: the flush mode handed to the engine. -/
inductive FlushCompress where
  | none
  | sync
  | finish
  deriving DecidableEq

/-- The engine state visible to the adapter: the two monotonic totals plus an
opaque internal component (abstracted as a natural number). -/
structure Compress where
  inner : Nat
  total_in : Nat
  total_out : Nat
  deriving DecidableEq

/-- The outcome of a Rust call: success, an `io::Error`, or a panic
(`unreachable!`). -/
inductive RustResult (α : Type) where
  | ok : α → RustResult α
  | ioError : String → RustResult α
  | panicked : RustResult α
  deriving DecidableEq

/-- Modelled from the spec: the external engine's single advance primitive
(`Compress::compress` of the out-of-scope flate2 collaborator): given the
engine state, the input bytes, the output capacity and a flush mode, it
returns a status and the new engine state (with updated totals), or an
error. -/
abbrev EngineFn : Type :=
  Compress → List Nat → Nat → FlushCompress → Except String (Status × Compress)

/-- `FlateEncoder`: the engine state plus the instance-local `flushed` flag. -/
structure FlateEncoder where
  compress : Compress
  flushed : Bool
  deriving DecidableEq

/-- The inherent `FlateEncoder::encode`: snapshots the engine totals, calls the
engine on `input.unwritten()` / `output.unwritten_mut()`, and advances both
cursors by exactly the deltas of the totals. -/
def FlateEncoder.encodeRaw (f : EngineFn) (e : FlateEncoder)
    (input output : PartialBuffer) (flush : FlushCompress) :
    RustResult (Status × FlateEncoder × PartialBuffer × PartialBuffer) :=
  let prior_in := e.compress.total_in
  let prior_out := e.compress.total_out
  match f e.compress input.unwritten output.unwritten.length flush with
  | .error msg => .ioError msg
  | .ok (status, c) =>
      .ok (status, { e with compress := c },
        input.advance (c.total_in - prior_in),
        output.advance (c.total_out - prior_out))

/-- `<FlateEncoder as Encode>::encode`: clears `flushed`, runs the engine with
`FlushCompress::None` and maps the status (`StreamEnd` is `unreachable!`). -/
def FlateEncoder.encode (f : EngineFn) (e : FlateEncoder)
    (input output : PartialBuffer) :
    RustResult (FlateEncoder × PartialBuffer × PartialBuffer) :=
  let e := { e with flushed := false }
  match FlateEncoder.encodeRaw f e input output .none with
  | .ioError msg => .ioError msg
  | .panicked => .panicked
  | .ok (.ok, e, i, o) => .ok (e, i, o)
  | .ok (.streamEnd, _, _, _) => .panicked
  | .ok (.bufError, _, _, _) => .ioError "unexpected BufError"

/-- `<FlateEncoder as Encode>::flush`: short-circuits to `true` when `flushed`
is already set; otherwise runs a `Sync` engine call on an empty input, sets
`flushed`, and reports `true` iff output capacity remains. -/
def FlateEncoder.flush (f : EngineFn) (e : FlateEncoder)
    (output : PartialBuffer) :
    RustResult (Bool × FlateEncoder × PartialBuffer) :=
  if e.flushed then
    .ok (true, e, output)
  else
    match FlateEncoder.encodeRaw f e (PartialBuffer.new []) output .sync with
    | .ioError msg => .ioError msg
    | .panicked => .panicked
    | .ok (_, e, _, o) =>
        .ok (!o.unwritten.isEmpty, { e with flushed := true }, o)

/-- `<FlateEncoder as Encode>::finish`: clears `flushed`, runs a `Finish`
engine call on an empty input and maps the status. -/
def FlateEncoder.finish (f : EngineFn) (e : FlateEncoder)
    (output : PartialBuffer) :
    RustResult (Bool × FlateEncoder × PartialBuffer) :=
  let e := { e with flushed := false }
  match FlateEncoder.encodeRaw f e (PartialBuffer.new []) output .finish with
  | .ioError msg => .ioError msg
  | .panicked => .panicked
  | .ok (.ok, e, _, o) => .ok (false, e, o)
  | .ok (.streamEnd, e, _, o) => .ok (true, e, o)
  | .ok (.bufError, _, _, _) => .ioError "unexpected BufError"

/-- The `Encode` trait: the three-operation codec contract the scheduler is
generic over; `ε` is the codec's state type. -/
structure Encode (ε : Type) where
  encode : ε → PartialBuffer → PartialBuffer →
    RustResult (ε × PartialBuffer × PartialBuffer)
  flush : ε → PartialBuffer → RustResult (Bool × ε × PartialBuffer)
  finish : ε → PartialBuffer → RustResult (Bool × ε × PartialBuffer)

/-- The `Encode` instance of `FlateEncoder`, for a given engine. -/
def flateCodec (f : EngineFn) : Encode FlateEncoder :=
  { encode := FlateEncoder.encode f
    flush := FlateEncoder.flush f
    finish := FlateEncoder.finish f }

/-- What one `poll_fill_buf` call on the upstream source reports. -/
inductive FillResult where
  | pending
  | ioError : String → FillResult
  | bytes : List Nat → FillResult
  deriving DecidableEq

/-- The `AsyncBufRead` capability of the upstream source, over a source state
type `ρ`: a fill operation (which may also evolve the source state, e.g. to
register a waker or pop buffered data) and a consume operation. -/
structure AsyncBufRead (ρ : Type) where
  poll_fill_buf : ρ → FillResult × ρ
  consume : ρ → Nat → ρ

/-- The scheduler's four phases (`State` in the source). -/
inductive State where
  | Encoding
  | Flushing
  | Finishing
  | Done
  deriving DecidableEq

/-- The `Encoder` adapter: upstream source state, codec state, phase. -/
structure Encoder (ρ ε : Type) where
  reader : ρ
  encoder : ε
  state : State
  deriving DecidableEq

/-- How one iteration of the `do_poll_read` loop body ends: continue looping,
return `Poll::Pending`, return `Poll::Ready(Ok(()))`, return an error, or
panic. Each carries the adapter, the `read` counter and the output buffer. -/
inductive LoopOut (ρ ε : Type) where
  | next : Encoder ρ ε → Nat → PartialBuffer → LoopOut ρ ε
  | pend : Encoder ρ ε → Nat → PartialBuffer → LoopOut ρ ε
  | ready : Encoder ρ ε → Nat → PartialBuffer → LoopOut ρ ε
  | ioError : Encoder ρ ε → String → PartialBuffer → LoopOut ρ ε
  | panicked : LoopOut ρ ε
  deriving DecidableEq

/-- The two checks after the state assignment at the bottom of the loop body
(`if let State::Done ... return` and `if output.unwritten().is_empty() ...
return`). -/
def afterAssign {ρ ε : Type} (c : Encoder ρ ε) (read : Nat)
    (output : PartialBuffer) : LoopOut ρ ε :=
  match c.state with
  | .Done => .ready c read output
  | _ =>
      if output.unwritten.isEmpty then .ready c read output
      else .next c read output

/-- One iteration of the loop body of `do_poll_read`. -/
def loopStep {ρ ε : Type} (R : AsyncBufRead ρ) (E : Encode ε)
    (c : Encoder ρ ε) (read : Nat) (output : PartialBuffer) : LoopOut ρ ε :=
  match c.state with
  | .Encoding =>
      match R.poll_fill_buf c.reader with
      | (.pending, r) =>
          if read = 0 then
            .pend { c with reader := r } read output
          else
            afterAssign { c with reader := r, state := .Flushing } read output
      | (.ioError msg, r) => .ioError { c with reader := r } msg output
      | (.bytes input, r) =>
          if input.isEmpty then
            afterAssign { c with reader := r, state := .Finishing } read output
          else
            match E.encode c.encoder (PartialBuffer.new input) output with
            | .ioError msg => .ioError { c with reader := r } msg output
            | .panicked => .panicked
            | .ok (e, i, o) =>
                let len := i.written.length
                afterAssign
                  { reader := R.consume r len, encoder := e, state := .Encoding }
                  (read + len) o
  | .Flushing =>
      match (if read = 0 then
               match E.encode c.encoder (PartialBuffer.new []) output with
               | .ioError msg => RustResult.ioError msg
               | .panicked => RustResult.panicked
               | .ok (e, _, o) => RustResult.ok (e, o)
             else RustResult.ok (c.encoder, output)) with
      | .ioError msg => .ioError c msg output
      | .panicked => .panicked
      | .ok (e, o) =>
          match E.flush e o with
          | .ioError msg => .ioError c msg o
          | .panicked => .panicked
          | .ok (true, e, o) =>
              afterAssign { c with encoder := e, state := .Encoding } 0 o
          | .ok (false, e, o) =>
              afterAssign { c with encoder := e, state := .Flushing } read o
  | .Finishing =>
      match E.finish c.encoder output with
      | .ioError msg => .ioError c msg output
      | .panicked => .panicked
      | .ok (true, e, o) =>
          afterAssign { c with encoder := e, state := .Done } read o
      | .ok (false, e, o) =>
          afterAssign { c with encoder := e, state := .Finishing } read o
  | .Done =>
      afterAssign { c with state := .Done } read output

/-- `do_poll_read`: the loop, with explicit fuel (the Rust `loop` has no
syntactic bound; `none` means the fuel ran out before the loop returned).
The `read` counter starts at `0` in each call (see `poll_read`). -/
def do_poll_read {ρ ε : Type} (R : AsyncBufRead ρ) (E : Encode ε) :
    Nat → Encoder ρ ε → Nat → PartialBuffer → Option (LoopOut ρ ε)
  | 0, _, _, _ => Option.none
  | fuel + 1, c, read, output =>
      match loopStep R E c read output with
      | .next c r o => do_poll_read R E fuel c r o
      | out => some out

/-- What a `poll_read` call on the adapter reports to its caller: pending, or
ready with the number of bytes filled into the caller's buffer, or an error,
or a panic. -/
inductive ReadOut (ρ ε : Type) where
  | pending : Encoder ρ ε → ReadOut ρ ε
  | ready : Encoder ρ ε → Nat → ReadOut ρ ε
  | ioError : Encoder ρ ε → String → ReadOut ρ ε
  | panicked : ReadOut ρ ε
  deriving DecidableEq

/-- `<Encoder as AsyncRead>::poll_read`: an empty caller buffer returns ready
at once; otherwise `do_poll_read` runs over a fresh output cursor of capacity
`cap`, errors propagate, a pending result with nothing yet written stays
pending, and anything else reports the bytes written. -/
def poll_read {ρ ε : Type} (R : AsyncBufRead ρ) (E : Encode ε) (fuel : Nat)
    (c : Encoder ρ ε) (cap : Nat) : Option (ReadOut ρ ε) :=
  if cap = 0 then some (.ready c 0)
  else
    match do_poll_read R E fuel c 0 (PartialBuffer.new (List.replicate cap 0)) with
    | Option.none => Option.none
    | some (.ioError c msg _) => some (.ioError c msg)
    | some .panicked => some .panicked
    | some (.pend c _ o) =>
        if o.written.isEmpty then some (.pending c) else some (.ready c o.written.length)
    | some (.ready c _ o) => some (.ready c o.written.length)
    | some (.next c _ o) => some (.ready c o.written.length)

/-- The phase recorded in a loop outcome (`none` after a panic). -/
def LoopOut.stateOf {ρ ε : Type} : LoopOut ρ ε → Option State
  | .next c _ _ => some c.state
  | .pend c _ _ => some c.state
  | .ready c _ _ => some c.state
  | .ioError c _ _ => some c.state
  | .panicked => Option.none

/-- The codec state recorded in a loop outcome (`none` after a panic). -/
def LoopOut.encoderOf {ρ ε : Type} : LoopOut ρ ε → Option ε
  | .next c _ _ => some c.encoder
  | .pend c _ _ => some c.encoder
  | .ready c _ _ => some c.encoder
  | .ioError c _ _ => some c.encoder
  | .panicked => Option.none

/-- The codec-contract facts (spec §4.2) that the loop-progress argument
uses: a successful transform keeps each cursor's region and only advances the
cursors; a transform facing capacity on both sides makes progress on at least
one; flush and finish report incomplete (`false`) only when the output was
exhausted. -/
structure EncodeContract {ε : Type} (E : Encode ε) : Prop where
  encode_frame : ∀ e i o e' i' o', E.encode e i o = .ok (e', i', o') →
    i'.buffer = i.buffer ∧ i.index ≤ i'.index ∧
    o'.buffer = o.buffer ∧ o.index ≤ o'.index
  encode_progress : ∀ e i o e' i' o', E.encode e i o = .ok (e', i', o') →
    i.unwritten ≠ [] → o.unwritten ≠ [] → i.index < i'.index ∨ o.index < o'.index
  flush_false_full : ∀ e o e' o', E.flush e o = .ok (false, e', o') →
    o'.unwritten = []
  finish_false_full : ∀ e o e' o', E.finish e o = .ok (false, e', o') →
    o'.unwritten = []

/-- A ghost record of one codec call, for observing the call sequences the
scheduler issues: the bytes offered to a transform call, or a flush call, or
a finish call. -/
inductive Event where
  | encodeCall : List Nat → Event
  | flushCall : Event
  | finishCall : Event
  deriving DecidableEq

/-- Wraps a codec so that its state additionally logs the calls made to it,
changing no behavior: used to observe which calls the scheduler issues. -/
def traced {ε : Type} (E : Encode ε) : Encode (ε × List Event) :=
  { encode := fun s i o =>
      match E.encode s.fst i o with
      | .ok (e, i', o') => .ok ((e, s.snd ++ [.encodeCall i.buffer]), i', o')
      | .ioError msg => .ioError msg
      | .panicked => .panicked
    flush := fun s o =>
      match E.flush s.fst o with
      | .ok (b, e, o') => .ok (b, (e, s.snd ++ [.flushCall]), o')
      | .ioError msg => .ioError msg
      | .panicked => .panicked
    finish := fun s o =>
      match E.finish s.fst o with
      | .ok (b, e, o') => .ok (b, (e, s.snd ++ [.finishCall]), o')
      | .ioError msg => .ioError msg
      | .panicked => .panicked }

/-- A scripted upstream source for concrete runs: its state is the list of
remaining fill results plus a running total of bytes consumed from it; an
exhausted script keeps reporting pending. -/
def scriptReader : AsyncBufRead (List FillResult × Nat) :=
  { poll_fill_buf := fun s =>
      match s with
      | ([], n) => (.pending, ([], n))
      | (h :: t, n) => (h, (t, n))
    consume := fun s k => (s.fst, s.snd + k) }

/-- A degenerate but contract-abiding codec for concrete runs: it consumes
all of its input, produces nothing, and reports flush and finish complete at
once. -/
def nullCodec : Encode Unit :=
  { encode := fun _ i o => .ok ((), i.advance i.unwritten.length, o)
    flush := fun _ o => .ok (true, (), o)
    finish := fun _ o => .ok (true, (), o) }

/-- A concrete engine for witness runs: it consumes its whole input, produces
`min k cap` bytes and reports status `ok`. -/
def engineK (k : Nat) : EngineFn := fun c input cap _ =>
  .ok (.ok, { c with total_in := c.total_in + input.length,
                     total_out := c.total_out + min k cap })

/-- Every successful `FlateEncoder::flush` leaves the `flushed` flag set
(both the short-circuit branch and the engine branch). -/
theorem flush_flushed {f : EngineFn} {e : FlateEncoder} {out : PartialBuffer}
    {r : Bool} {e' : FlateEncoder} {o' : PartialBuffer}
    (h : FlateEncoder.flush f e out = .ok (r, e', o')) : e'.flushed = true := by
  unfold FlateEncoder.flush at h
  split at h
  · simp only [RustResult.ok.injEq, Prod.mk.injEq] at h
    obtain ⟨-, rfl, -⟩ := h
    assumption
  · split at h
    · exact absurd h (by simp)
    · exact absurd h (by simp)
    · simp only [RustResult.ok.injEq, Prod.mk.injEq] at h
      obtain ⟨-, rfl, -⟩ := h
      rfl

/-- `FlateEncoder::flush` on an instance whose `flushed` flag is set
short-circuits: it reports `true` and touches neither the codec nor the
output. -/
theorem flush_of_flushed {f : EngineFn} {e : FlateEncoder} (out : PartialBuffer)
    (h : e.flushed = true) :
    FlateEncoder.flush f e out = .ok (true, e, out) := by
  unfold FlateEncoder.flush
  simp [h]

/-- C1: a non-short-circuited `flush` reports `false` exactly when the output
capacity is exhausted after the sync-boundary engine call, and after any such
incomplete report a subsequent call (with whatever fresh capacity) reports
`true`. -/
theorem c1_flush_boundary (f : EngineFn) (e : FlateEncoder)
    (out : PartialBuffer) (r : Bool) (e' : FlateEncoder) (o' : PartialBuffer)
    (hfl : e.flushed = false)
    (h : FlateEncoder.flush f e out = .ok (r, e', o')) :
    (r = false ↔ o'.unwritten = []) ∧
    ∀ out2, FlateEncoder.flush f e' out2 = .ok (true, e', out2) := by
  refine ⟨?_, fun out2 => flush_of_flushed out2 (flush_flushed h)⟩
  unfold FlateEncoder.flush at h
  rw [hfl] at h
  simp only [Bool.false_eq_true, if_false] at h
  split at h
  · exact absurd h (by simp)
  · exact absurd h (by simp)
  · simp only [RustResult.ok.injEq, Prod.mk.injEq] at h
    obtain ⟨h1, -, rfl⟩ := h
    subst h1
    simp [List.isEmpty_iff]

/-- C2: after any successful `flush`, a second `flush` with no intervening
transform call short-circuits: it reports `true`, writes nothing to the
output, and leaves the codec unchanged. -/
theorem c2_flush_idempotent (f : EngineFn) (e : FlateEncoder)
    (out1 : PartialBuffer) (r : Bool) (e1 : FlateEncoder) (o1 : PartialBuffer)
    (h : FlateEncoder.flush f e out1 = .ok (r, e1, o1)) (out2 : PartialBuffer) :
    FlateEncoder.flush f e1 out2 = .ok (true, e1, out2) :=
  flush_of_flushed out2 (flush_flushed h)

/-- C5: the status mapping of the concrete codec: engine status `ok` under
no-flush mode is transform success, `streamEnd` under no-flush mode is the
`unreachable!` panic, `ok` under finalize mode is finish-incomplete (`false`),
`streamEnd` under finalize mode is finish-complete (`true`), and `bufError`
is a fatal `io::Error` from both transform and finish. -/
theorem c5_status_mapping (f : EngineFn) (e : FlateEncoder)
    (i o : PartialBuffer) :
    (∀ c', f e.compress i.unwritten o.unwritten.length .none = .ok (.ok, c') →
       ∃ e' i' o', FlateEncoder.encode f e i o = .ok (e', i', o')) ∧
    (∀ c', f e.compress i.unwritten o.unwritten.length .none = .ok (.streamEnd, c') →
       FlateEncoder.encode f e i o = .panicked) ∧
    (∀ c', f e.compress i.unwritten o.unwritten.length .none = .ok (.bufError, c') →
       FlateEncoder.encode f e i o = .ioError "unexpected BufError") ∧
    (∀ c', f e.compress [] o.unwritten.length .finish = .ok (.ok, c') →
       ∃ e' o', FlateEncoder.finish f e o = .ok (false, e', o')) ∧
    (∀ c', f e.compress [] o.unwritten.length .finish = .ok (.streamEnd, c') →
       ∃ e' o', FlateEncoder.finish f e o = .ok (true, e', o')) ∧
    (∀ c', f e.compress [] o.unwritten.length .finish = .ok (.bufError, c') →
       FlateEncoder.finish f e o = .ioError "unexpected BufError") := by
  have hnil : (PartialBuffer.new []).unwritten = [] := rfl
  refine ⟨fun c' h => ?_, fun c' h => ?_, fun c' h => ?_,
    fun c' h => ?_, fun c' h => ?_, fun c' h => ?_⟩ <;>
    simp only [FlateEncoder.encode, FlateEncoder.finish, FlateEncoder.encodeRaw,
      hnil, h]
  · exact ⟨_, _, _, rfl⟩
  · exact ⟨_, _, rfl⟩
  · exact ⟨_, _, rfl⟩

/-- C6: the single engine call site of the concrete codec (the inherent
`encode`, through which transform, flush and finish all go) advances the
input cursor by exactly the delta of the engine's total-bytes-consumed
counter and the output cursor by exactly the delta of the total-bytes-produced
counter, on the unchanged underlying regions. -/
theorem c6_delta_reconciliation (f : EngineFn) (e : FlateEncoder)
    (i o : PartialBuffer) (m : FlushCompress) (st : Status)
    (e' : FlateEncoder) (i' o' : PartialBuffer)
    (h : FlateEncoder.encodeRaw f e i o m = .ok (st, e', i', o')) :
    i'.buffer = i.buffer ∧
    i'.index = i.index + (e'.compress.total_in - e.compress.total_in) ∧
    o'.buffer = o.buffer ∧
    o'.index = o.index + (e'.compress.total_out - e.compress.total_out) := by
  unfold FlateEncoder.encodeRaw at h
  split at h
  · simp at h
  · simp only [RustResult.ok.injEq, Prod.mk.injEq] at h
    obtain ⟨-, rfl, rfl, rfl⟩ := h
    simp [PartialBuffer.advance]

/-- Witness for C1 at a concrete engine: the boundary fits (three of five
output bytes used), so flush reports `true`, and the follow-up call
short-circuits. -/
theorem c1_witness :
    ((true : Bool) = false ↔ PartialBuffer.unwritten ⟨[0, 0, 0, 0, 0], 3⟩ = []) ∧
    ∀ out2, FlateEncoder.flush (engineK 3) ⟨⟨0, 0, 3⟩, true⟩ out2 =
      .ok (true, ⟨⟨0, 0, 3⟩, true⟩, out2) :=
  c1_flush_boundary (engineK 3) ⟨⟨0, 0, 0⟩, false⟩
    (PartialBuffer.new [0, 0, 0, 0, 0]) true ⟨⟨0, 0, 3⟩, true⟩
    ⟨[0, 0, 0, 0, 0], 3⟩ rfl rfl

/-- Witness for C2 at a concrete engine: the second flush short-circuits. -/
theorem c2_witness :
    FlateEncoder.flush (engineK 3) ⟨⟨0, 0, 3⟩, true⟩ (PartialBuffer.new [9]) =
      .ok (true, ⟨⟨0, 0, 3⟩, true⟩, PartialBuffer.new [9]) :=
  c2_flush_idempotent (engineK 3) ⟨⟨0, 0, 0⟩, false⟩
    (PartialBuffer.new [0, 0, 0, 0, 0]) true ⟨⟨0, 0, 3⟩, true⟩
    ⟨[0, 0, 0, 0, 0], 3⟩ rfl (PartialBuffer.new [9])

/-- Witness for C6 at a concrete engine call consuming 2 bytes and producing
3 bytes: both cursors advance by exactly the counter deltas. -/
theorem c6_witness :
    ([1, 2] : List Nat) = [1, 2] ∧ (2 : Nat) = 0 + (2 - 0) ∧
    ([0, 0, 0, 0, 0] : List Nat) = [0, 0, 0, 0, 0] ∧ (3 : Nat) = 0 + (3 - 0) :=
  c6_delta_reconciliation (engineK 3) ⟨⟨0, 0, 0⟩, false⟩
    (PartialBuffer.new [1, 2]) (PartialBuffer.new [0, 0, 0, 0, 0]) .none
    .ok ⟨⟨0, 2, 3⟩, false⟩ ⟨[1, 2], 2⟩ ⟨[0, 0, 0, 0, 0], 3⟩ rfl

/-- The loop-bottom checks return an outcome recording exactly the phase they
were handed. -/
theorem afterAssign_stateOf {ρ ε : Type} (c : Encoder ρ ε) (r : Nat)
    (o : PartialBuffer) : (afterAssign c r o).stateOf = some c.state := by
  unfold afterAssign
  split
  · rfl
  · split <;> rfl

/-- The loop-bottom checks return an outcome recording exactly the codec
state they were handed. -/
theorem afterAssign_encoderOf {ρ ε : Type} (c : Encoder ρ ε) (r : Nat)
    (o : PartialBuffer) : (afterAssign c r o).encoderOf = some c.encoder := by
  unfold afterAssign
  split
  · rfl
  · split <;> rfl

/-- The loop-bottom checks never produce a pending result. -/
theorem afterAssign_no_pend {ρ ε : Type} (c : Encoder ρ ε) (r : Nat)
    (o : PartialBuffer) (c' : Encoder ρ ε) (r' : Nat) (o' : PartialBuffer) :
    afterAssign c r o ≠ .pend c' r' o' := by
  unfold afterAssign
  split
  · simp
  · split <;> simp

/-- The loop-bottom checks never produce an error result. -/
theorem afterAssign_no_ioError {ρ ε : Type} (c : Encoder ρ ε) (r : Nat)
    (o : PartialBuffer) (c' : Encoder ρ ε) (msg : String) (o' : PartialBuffer) :
    afterAssign c r o ≠ .ioError c' msg o' := by
  unfold afterAssign
  split
  · simp
  · split <;> simp

/-- One loop iteration from the `Done` phase returns ready at once, changing
nothing. -/
theorem loopStep_done {ρ ε : Type} (R : AsyncBufRead ρ) (E : Encode ε)
    {c : Encoder ρ ε} (h : c.state = .Done) (read : Nat) (output : PartialBuffer) :
    loopStep R E c read output = .ready c read output := by
  obtain ⟨rd, en, st⟩ := c
  subst h
  rfl

/-- C4: the `Done` phase is absorbing: from it, every `do_poll_read` returns
ready at once with the adapter, counter and output buffer untouched, and
every `poll_read` reports success with zero bytes produced and the adapter
(still in `Done`) unchanged — for any fuel, so for any number of polls. -/
theorem c4_done_absorbing {ρ ε : Type} (R : AsyncBufRead ρ) (E : Encode ε)
    (c : Encoder ρ ε) (h : c.state = .Done) :
    (∀ fuel read output,
        do_poll_read R E (fuel + 1) c read output = some (.ready c read output)) ∧
    (∀ fuel cap, poll_read R E (fuel + 1) c cap = some (.ready c 0)) := by
  have hls : ∀ read output, loopStep R E c read output = .ready c read output :=
    loopStep_done R E h
  constructor
  · intro fuel read output
    unfold do_poll_read
    rw [hls]
  · intro fuel cap
    unfold poll_read
    by_cases hc : cap = 0
    · simp [hc]
    · rw [if_neg hc]
      unfold do_poll_read
      rw [hls]
      simp [PartialBuffer.written, PartialBuffer.new]

/-- Witness for C4 at a concrete adapter in the `Done` phase. -/
theorem c4_witness :
    (∀ fuel read output, do_poll_read scriptReader nullCodec (fuel + 1)
        ⟨([], 0), (), .Done⟩ read output =
        some (.ready ⟨([], 0), (), .Done⟩ read output)) ∧
    (∀ fuel cap, poll_read scriptReader nullCodec (fuel + 1)
        ⟨([], 0), (), .Done⟩ cap = some (.ready ⟨([], 0), (), .Done⟩ 0)) :=
  c4_done_absorbing scriptReader nullCodec ⟨([], 0), (), .Done⟩ rfl

/-- C10: when a loop iteration ends in an error — from the upstream source or
from any codec operation — the outcome's phase equals the phase the iteration
started in (the state assignment happens only after the phase body succeeds),
and `do_poll_read` returns that error immediately. -/
theorem c10_error_preserves_state {ρ ε : Type} (R : AsyncBufRead ρ)
    (E : Encode ε) (c : Encoder ρ ε) (read : Nat) (output : PartialBuffer)
    (c' : Encoder ρ ε) (msg : String) (o' : PartialBuffer) :
    (loopStep R E c read output = .ioError c' msg o' → c'.state = c.state) ∧
    (∀ fuel, loopStep R E c read output = .ioError c' msg o' →
        do_poll_read R E (fuel + 1) c read output = some (.ioError c' msg o')) := by
  constructor
  · intro h
    unfold loopStep at h
    repeat' split at h
    all_goals first
      | exact absurd h (afterAssign_no_ioError _ _ _ _ _ _)
      | (simp only [LoopOut.ioError.injEq] at h
         obtain ⟨rfl, -, -⟩ := h
         simp_all)
      | simp_all
  · intro fuel h
    unfold do_poll_read
    rw [h]

/-- C7: an empty upstream chunk moves the `Encoding` phase to `Finishing`;
from `Finishing`, a finish call reporting complete moves to `Done` (returning
ready with the finish call's output), and a finish call reporting incomplete
stays in `Finishing`. -/
theorem c7_finalize_transitions {ρ ε : Type} (R : AsyncBufRead ρ)
    (E : Encode ε) (c : Encoder ρ ε) (read : Nat) (output : PartialBuffer) :
    (∀ r, c.state = .Encoding → R.poll_fill_buf c.reader = (.bytes [], r) →
       (loopStep R E c read output).stateOf = some .Finishing) ∧
    (∀ e' o', c.state = .Finishing →
       E.finish c.encoder output = .ok (true, e', o') →
       loopStep R E c read output =
         .ready { c with encoder := e', state := .Done } read o') ∧
    (∀ e' o', c.state = .Finishing →
       E.finish c.encoder output = .ok (false, e', o') →
       (loopStep R E c read output).stateOf = some .Finishing) := by
  obtain ⟨rd, en, st⟩ := c
  refine ⟨fun r hs hf => ?_, fun e' o' hs hf => ?_, fun e' o' hs hf => ?_⟩
  · cases hs; simp [loopStep, hf, afterAssign_stateOf]
  · cases hs; simp [loopStep, hf, afterAssign]
  · cases hs; simp [loopStep, hf, afterAssign_stateOf]

/-- C8: a `Flushing` iteration entered with a zero consumed-bytes counter
issues exactly one priming transform call on an explicitly empty input and
then the flush call (as the call log of the traced codec shows); with a
nonzero counter it issues the flush call alone. -/
theorem c8_flushing_priming {ρ ε : Type} (R : AsyncBufRead ρ) (E : Encode ε)
    (rd : ρ) (e : ε) (log : List Event) (read : Nat) (output : PartialBuffer) :
    (∀ e1 i1 o1 b e2 o2, read = 0 →
       E.encode e (PartialBuffer.new []) output = .ok (e1, i1, o1) →
       E.flush e1 o1 = .ok (b, e2, o2) →
       (loopStep R (traced E) ⟨rd, (e, log), .Flushing⟩ read output).encoderOf =
         some (e2, log ++ [.encodeCall [], .flushCall])) ∧
    (∀ b e2 o2, read ≠ 0 →
       E.flush e output = .ok (b, e2, o2) →
       (loopStep R (traced E) ⟨rd, (e, log), .Flushing⟩ read output).encoderOf =
         some (e2, log ++ [.flushCall])) := by
  constructor
  · intro e1 i1 o1 b e2 o2 hr he hf
    subst hr
    cases b <;>
      simp [loopStep, traced, he, hf, afterAssign_encoderOf,
        show (PartialBuffer.new []).buffer = [] from rfl]
  · intro b e2 o2 hr hf
    cases b <;>
      simp [loopStep, traced, hr, hf, afterAssign_encoderOf]


/-- Inversion of the loop-bottom checks producing a loop continuation:
nothing changed at the checks, there is still output capacity, and the phase
is not `Done`. -/
theorem afterAssign_next_inv {ρ ε : Type} {c : Encoder ρ ε} {read : Nat}
    {out : PartialBuffer} {c' : Encoder ρ ε} {read' : Nat} {out' : PartialBuffer}
    (h : afterAssign c read out = .next c' read' out') :
    c' = c ∧ read' = read ∧ out' = out ∧ out.unwritten ≠ [] ∧ c.state ≠ .Done := by
  unfold afterAssign at h
  split at h
  · exact absurd h (by simp)
  · rename_i hst
    split at h
    · exact absurd h (by simp)
    · rename_i hne
      simp only [LoopOut.next.injEq] at h
      obtain ⟨rfl, rfl, rfl⟩ := h
      refine ⟨rfl, rfl, rfl, ?_, ?_⟩
      · simpa [List.isEmpty_iff] using hne
      · intro hd
        exact hst hd

/-- C9: under the codec contract, a loop iteration that re-enters the loop
(rather than returning from the poll) has made progress: the consumed-bytes
counter grew, or the output cursor advanced, or the phase changed — so no
iteration of the loop body spins without progress. -/
theorem c9_loop_progress {ρ ε : Type} (R : AsyncBufRead ρ) (E : Encode ε)
    (hE : EncodeContract E) (c : Encoder ρ ε) (read : Nat)
    (output : PartialBuffer) (c' : Encoder ρ ε) (read' : Nat)
    (output' : PartialBuffer)
    (h : loopStep R E c read output = .next c' read' output') :
    read < read' ∨ output.index < output'.index ∨ c.state ≠ c'.state := by
  obtain ⟨rd, en, st⟩ := c
  cases st
  case Done =>
    rw [loopStep_done R E rfl] at h
    exact absurd h (by simp)
  case Finishing =>
    simp only [loopStep] at h
    rcases hf : E.finish en output with ⟨b, e2, o2⟩ | msg | _ <;> rw [hf] at h
    · cases b
      · obtain ⟨rfl, -, rfl, hne, -⟩ := afterAssign_next_inv h
        exact absurd (hE.finish_false_full _ _ _ _ hf) hne
      · obtain ⟨rfl, -, -, -, hd⟩ := afterAssign_next_inv h
        exact absurd rfl hd
    · exact absurd h (by simp)
    · exact absurd h (by simp)
  case Flushing =>
    simp only [loopStep] at h
    by_cases hr : read = 0
    · rw [if_pos hr] at h
      rcases he : E.encode en (PartialBuffer.new []) output with ⟨e1, i1, o1⟩ | msg | _ <;>
        rw [he] at h <;> dsimp only at h
      · rcases hfl : E.flush e1 o1 with ⟨b, e2, o2⟩ | msg | _ <;> rw [hfl] at h
        · cases b
          · obtain ⟨rfl, -, rfl, hne, -⟩ := afterAssign_next_inv h
            exact absurd (hE.flush_false_full _ _ _ _ hfl) hne
          · obtain ⟨rfl, -, -, -, -⟩ := afterAssign_next_inv h
            exact Or.inr (Or.inr (by simp))
        · exact absurd h (by simp)
        · exact absurd h (by simp)
      · exact absurd h (by simp)
      · exact absurd h (by simp)
    · rw [if_neg hr] at h
      dsimp only at h
      rcases hfl : E.flush en output with ⟨b, e2, o2⟩ | msg | _ <;> rw [hfl] at h
      · cases b
        · obtain ⟨rfl, -, rfl, hne, -⟩ := afterAssign_next_inv h
          exact absurd (hE.flush_false_full _ _ _ _ hfl) hne
        · obtain ⟨rfl, -, -, -, -⟩ := afterAssign_next_inv h
          exact Or.inr (Or.inr (by simp))
      · exact absurd h (by simp)
      · exact absurd h (by simp)
  case Encoding =>
    simp only [loopStep] at h
    rcases hf : R.poll_fill_buf rd with ⟨fr, r⟩
    rw [hf] at h
    cases fr
    case pending =>
      dsimp only at h
      by_cases hr : read = 0
      · rw [if_pos hr] at h
        exact absurd h (by simp)
      · rw [if_neg hr] at h
        obtain ⟨rfl, -, -, -, -⟩ := afterAssign_next_inv h
        exact Or.inr (Or.inr (by simp))
    case ioError msg =>
      dsimp only at h
      exact absurd h (by simp)
    case bytes data =>
      dsimp only at h
      by_cases hd : data.isEmpty
      · rw [if_pos hd] at h
        obtain ⟨rfl, -, -, -, -⟩ := afterAssign_next_inv h
        exact Or.inr (Or.inr (by simp))
      · rw [if_neg hd] at h
        rcases he : E.encode en (PartialBuffer.new data) output with ⟨e2, i2, o2⟩ | msg | _ <;>
          rw [he] at h <;> dsimp only at h
        · obtain ⟨rfl, hrd, hout, hne, -⟩ := afterAssign_next_inv h
          obtain ⟨hib, hii, hob, hoi⟩ := hE.encode_frame _ _ _ _ _ _ he
          by_cases ho : output.unwritten = []
          · exfalso
            apply hne
            have hlen : output.buffer.length ≤ output.index := by
              simpa [PartialBuffer.unwritten, List.drop_eq_nil_iff] using ho
            have h2 : o2.buffer.length ≤ o2.index := by
              rw [hob]
              omega
            simpa [PartialBuffer.unwritten, List.drop_eq_nil_iff] using h2
          · have hdne : data ≠ [] := by simpa [List.isEmpty_iff] using hd
            have hprog := hE.encode_progress _ _ _ _ _ _ he
              (by simpa [PartialBuffer.new, PartialBuffer.unwritten] using hdne) ho
            rcases hprog with hi | ho2
            · left
              have hb : i2.buffer = data := hib
              have hlen : 0 < i2.written.length := by
                simp only [PartialBuffer.written, List.length_take, hb]
                simp only [PartialBuffer.new] at hi
                have : 0 < data.length := List.length_pos.mpr hdne
                omega
              omega
            · refine Or.inr (Or.inl ?_)
              rw [hout]
              exact ho2
        · exact absurd h (by simp)
        · exact absurd h (by simp)

/-- The degenerate codec obeys the codec contract used by the loop-progress
argument. -/
theorem nullCodec_contract : EncodeContract nullCodec := by
  constructor
  · intro e i o e' i' o' h
    simp only [nullCodec, RustResult.ok.injEq, Prod.mk.injEq] at h
    obtain ⟨-, rfl, rfl⟩ := h
    exact ⟨rfl, Nat.le_add_right _ _, rfl, Nat.le_refl _⟩
  · intro e i o e' i' o' h hi ho
    simp only [nullCodec, RustResult.ok.injEq, Prod.mk.injEq] at h
    obtain ⟨-, rfl, -⟩ := h
    left
    have : 0 < i.unwritten.length := List.length_pos.mpr hi
    simp only [PartialBuffer.advance]
    omega
  · intro e o e' o' h
    simp [nullCodec] at h
  · intro e o e' o' h
    simp [nullCodec] at h

/-- Witness for C9 at a concrete run: the iteration that consumes the one
available byte re-enters the loop having grown the consumed counter. -/
theorem c9_witness :
    (0 : Nat) < 1 ∨
      (PartialBuffer.new [0, 0]).index < (PartialBuffer.new [0, 0]).index ∨
      State.Encoding ≠ State.Encoding :=
  c9_loop_progress scriptReader nullCodec nullCodec_contract
    ⟨([FillResult.bytes [1]], 0), (), .Encoding⟩ 0 (PartialBuffer.new [0, 0])
    ⟨([], 1), (), .Encoding⟩ 1 (PartialBuffer.new [0, 0]) rfl

/-- Inversion of a loop iteration returning pending: only the `Encoding`
phase with a blocked upstream and a zero consumed-bytes counter suspends. -/
theorem loopStep_pend_inv {ρ ε : Type} {R : AsyncBufRead ρ} {E : Encode ε}
    {c : Encoder ρ ε} {read : Nat} {output : PartialBuffer}
    {c' : Encoder ρ ε} {r' : Nat} {o' : PartialBuffer}
    (h : loopStep R E c read output = .pend c' r' o') :
    c.state = .Encoding ∧ read = 0 ∧ r' = 0 ∧ o' = output ∧
    (R.poll_fill_buf c.reader).fst = .pending := by
  obtain ⟨rd, en, st⟩ := c
  cases st
  case Done =>
    rw [loopStep_done R E rfl] at h
    exact absurd h (by simp)
  case Finishing =>
    simp only [loopStep] at h
    rcases hf : E.finish en output with ⟨b, e2, o2⟩ | msg | _ <;> rw [hf] at h
    · cases b <;> exact absurd h (afterAssign_no_pend _ _ _ _ _ _)
    · exact absurd h (by simp)
    · exact absurd h (by simp)
  case Flushing =>
    simp only [loopStep] at h
    by_cases hr : read = 0
    · rw [if_pos hr] at h
      rcases he : E.encode en (PartialBuffer.new []) output with ⟨e1, i1, o1⟩ | msg | _ <;>
        rw [he] at h <;> dsimp only at h
      · rcases hfl : E.flush e1 o1 with ⟨b, e2, o2⟩ | msg | _ <;> rw [hfl] at h
        · cases b <;> exact absurd h (afterAssign_no_pend _ _ _ _ _ _)
        · exact absurd h (by simp)
        · exact absurd h (by simp)
      · exact absurd h (by simp)
      · exact absurd h (by simp)
    · rw [if_neg hr] at h
      dsimp only at h
      rcases hfl : E.flush en output with ⟨b, e2, o2⟩ | msg | _ <;> rw [hfl] at h
      · cases b <;> exact absurd h (afterAssign_no_pend _ _ _ _ _ _)
      · exact absurd h (by simp)
      · exact absurd h (by simp)
  case Encoding =>
    simp only [loopStep] at h
    rcases hf : R.poll_fill_buf rd with ⟨fr, r⟩
    rw [hf] at h
    cases fr
    case pending =>
      dsimp only at h
      by_cases hr : read = 0
      · rw [if_pos hr] at h
        simp only [LoopOut.pend.injEq] at h
        obtain ⟨-, rfl, rfl⟩ := h
        exact ⟨rfl, hr, hr, rfl, rfl⟩
      · rw [if_neg hr] at h
        exact absurd h (afterAssign_no_pend _ _ _ _ _ _)
    case ioError msg =>
      dsimp only at h
      exact absurd h (by simp)
    case bytes data =>
      dsimp only at h
      by_cases hd : data.isEmpty
      · rw [if_pos hd] at h
        exact absurd h (afterAssign_no_pend _ _ _ _ _ _)
      · rw [if_neg hd] at h
        rcases he : E.encode en (PartialBuffer.new data) output with ⟨e2, i2, o2⟩ | msg | _ <;>
          rw [he] at h <;> dsimp only at h
        · exact absurd h (afterAssign_no_pend _ _ _ _ _ _)
        · exact absurd h (by simp)
        · exact absurd h (by simp)

/-- Whenever `do_poll_read` returns pending, the consumed-bytes counter it
carries at that point is zero. -/
theorem do_poll_read_pend {ρ ε : Type} (R : AsyncBufRead ρ) (E : Encode ε) :
    ∀ fuel (c : Encoder ρ ε) read output c' r' o',
      do_poll_read R E fuel c read output = some (.pend c' r' o') → r' = 0 := by
  intro fuel
  induction fuel with
  | zero =>
      intro c read output c' r' o' h
      simp [do_poll_read] at h
  | succ n ih =>
      intro c read output c' r' o' h
      unfold do_poll_read at h
      rcases hs : loopStep R E c read output with ⟨c1, r1, o1⟩ | ⟨c1, r1, o1⟩ |
        ⟨c1, r1, o1⟩ | ⟨c1, m1, o1⟩ | _ <;> rw [hs] at h <;> dsimp only at h
      · exact ih _ _ _ _ _ _ h
      · obtain ⟨-, -, hr1, -, -⟩ := loopStep_pend_inv hs
        simp only [Option.some.injEq, LoopOut.pend.injEq] at h
        obtain ⟨-, rfl, -⟩ := h
        exact hr1
      · simp at h
      · simp at h
      · simp at h

/-- C3 (amended): a loop iteration suspends only from the `Encoding` phase
with the upstream blocked and the scheduler's consumed-bytes counter — which
counts bytes consumed since the start of the poll call or since the last
completed flush within it, whichever is later — equal to zero; when the
upstream blocks with a nonzero counter the iteration moves to `Flushing`
instead; the counter is zero whenever `do_poll_read` returns pending; and a
`poll_read` reports pending only when additionally nothing was written to the
caller's buffer. -/
theorem c3_pending_amended {ρ ε : Type} (R : AsyncBufRead ρ) (E : Encode ε) :
    (∀ (c : Encoder ρ ε) read output c' r' o',
        loopStep R E c read output = .pend c' r' o' →
        c.state = .Encoding ∧ read = 0 ∧ r' = 0 ∧ o' = output ∧
        (R.poll_fill_buf c.reader).fst = .pending) ∧
    (∀ (c : Encoder ρ ε) read output, c.state = .Encoding → read ≠ 0 →
        (R.poll_fill_buf c.reader).fst = .pending →
        (loopStep R E c read output).stateOf = some .Flushing) ∧
    (∀ fuel (c : Encoder ρ ε) read output c' r' o',
        do_poll_read R E fuel c read output = some (.pend c' r' o') → r' = 0) ∧
    (∀ fuel (c : Encoder ρ ε) cap c',
        poll_read R E fuel c cap = some (.pending c') →
        ∃ r' o', do_poll_read R E fuel c 0
            (PartialBuffer.new (List.replicate cap 0)) = some (.pend c' r' o') ∧
          r' = 0 ∧ o'.written = []) := by
  refine ⟨fun c read output c' r' o' h => loopStep_pend_inv h,
    ?_, do_poll_read_pend R E, ?_⟩
  · intro c read output hs hr hp
    obtain ⟨rd, en, st⟩ := c
    cases hs
    rcases hf : R.poll_fill_buf rd with ⟨fr, r⟩
    rw [hf] at hp
    cases fr <;> simp at hp
    simp [loopStep, hf, hr, afterAssign_stateOf]
  · intro fuel c cap c' h
    unfold poll_read at h
    by_cases hc : cap = 0
    · rw [if_pos hc] at h
      exact absurd h (by simp)
    · rw [if_neg hc] at h
      rcases hd : do_poll_read R E fuel c 0 (PartialBuffer.new (List.replicate cap 0)) with _ | ⟨c1, r1, o1⟩ | ⟨c1, r1, o1⟩ | ⟨c1, r1, o1⟩ | ⟨c1, m1, o1⟩ | _ <;>
        rw [hd] at h <;> (try dsimp only at h)
      · exact absurd h (by simp)
      · exact absurd h (by simp)
      · by_cases hw : o1.written.isEmpty
        · rw [if_pos hw] at h
          simp only [Option.some.injEq, ReadOut.pending.injEq] at h
          subst h
          exact ⟨r1, o1, rfl, do_poll_read_pend R E fuel c 0 _ _ _ _ hd,
            by simpa [List.isEmpty_iff] using hw⟩
        · rw [if_neg hw] at h
          exact absurd h (by simp)
      · exact absurd h (by simp)
      · exact absurd h (by simp)
      · exact absurd h (by simp)

/-- C3 counterexample: a single adapter poll (script: one 1-byte chunk, then
the upstream blocks; a codec that consumes everything, emits nothing and
flushes instantly) consumes one byte from upstream — the source state records
1 byte consumed — and still returns pending, refuting that a pending poll
implies zero input bytes were consumed during that poll call. -/
theorem c3_pending_cex :
    poll_read scriptReader nullCodec 10
        ⟨([FillResult.bytes [1]], 0), (), .Encoding⟩ 4 =
      some (.pending ⟨([], 1), (), .Encoding⟩) ∧ (1 : Nat) ≠ 0 :=
  ⟨rfl, by decide⟩

end AC
